import Mathlib

/-!
Shallow embedding of the `asf-farms-cleaner` batch driver (`src/index.ts`,
provided as `src/unnamed/part_000`) and the parts of `src/bot.ts` and
`src/interfaces/account.interface.ts` that the driver observes.

Conventions:
* JavaScript values read from JSON files are modelled by the inductive `Json`;
  JavaScript truthiness is `Json.truthy`, and `undefined` (a missing property)
  is `Option.none`, so property access is `Json.get : Json → String → Option Json`.
* `JSON.parse` of a file is modelled by giving the filesystem as a partial map
  from paths to parse results: `none` = the file does not exist, `some (.error ())`
  = the file exists but its content is not valid JSON (`JSON.parse` throws),
  `some (.ok j)` = the file parses to `j`.
* The promise chain `.then(...).catch(...).finally(...)` attached to each queue
  entry is modelled as a function from the settled task result to the list of
  observable events it performs (status write, `bot.stop()`, `cleanAccount`).
* `p-retry` is an external npm dependency (its source is not part of this
  repository); it is modelled from its documented semantics: `retries` extra
  attempts beyond the first, inter-attempt delay
  `min (minTimeout * factor ^ attemptIndex) maxTimeout` with default factor 2,
  and the last attempt's error rethrown unchanged.
-/

/-- JavaScript/JSON values as far as this program inspects them. -/
inductive Json where
  | null
  | bool (b : Bool)
  | num (n : Int)
  | str (s : String)
  | obj (fields : List (String × Json))

/-- JavaScript truthiness of a defined value (`!v` is `!truthy v`). -/
def Json.truthy : Json → Bool
  | .null => false
  | .bool b => b
  | .num n => n != 0
  | .str s => s != ""
  | .obj _ => true

/-- Property access `v.k` on a defined value: `none` models `undefined`. -/
def Json.get : Json → String → Option Json
  | .obj fields, k => fields.lookup k
  | _, _ => none

/-- Truthiness of a possibly-`undefined` value (`undefined` is falsy). -/
def truthyOpt : Option Json → Bool
  | none => false
  | some j => j.truthy

/-- `AccountStatus` enum from `src/interfaces/account.interface.ts`. -/
inductive AccountStatus where
  | Active
  | Banned
  | Limited
  | Unknown
deriving DecidableEq, Repr

/-- `Config` shape as used by `main` and `getDefaultConfig` in `src/index.ts`
(the interface file `config.interface.ts` is not in the provided sources;
both fields are booleans, defaulted to `true`). -/
structure Config where
  CleanLimitedAccounts : Bool
  CleanBannedAccounts : Bool
deriving DecidableEq, Repr

/-- `getDefaultConfig` from `src/index.ts`. -/
def getDefaultConfig : Config :=
  { CleanLimitedAccounts := true, CleanBannedAccounts := true }

/-- `String.replace(pattern, replacement)` with a string pattern replaces the
first occurrence only; this is the list-of-characters engine. -/
def listReplaceFirst (s pat rep : List Char) : List Char :=
  match s with
  | [] => []
  | c :: rest =>
      if pat.isPrefixOf s then rep ++ s.drop pat.length
      else c :: listReplaceFirst rest pat rep

/-- JavaScript `s.replace(pat, rep)` for a string `pat` (first occurrence). -/
def replaceFirst (s pat rep : String) : String :=
  ⟨listReplaceFirst s.data pat.data rep.data⟩

/-- Account-id derivation in `readAccounts`: `jsonPath.replace('.json', '')`. -/
def deriveId (jsonPath : String) : String :=
  replaceFirst jsonPath ".json" ""

/-- `Account` record from `src/interfaces/account.interface.ts`; `username`,
`password` and `secret` hold the JSON values assigned by `readAccounts`. -/
structure Account where
  id : String
  status : AccountStatus
  username : Json
  password : Json
  secret : Option Json

/-- Result of one settled queue task for an account: the `.then` handler runs
on fulfilment with the bot's observed `bans` and `level` fields (`level` is
`Option` because `Bot.level?: number` may be `undefined`); the `.catch`
handler runs on any rejection (exhausted retries or unexpected throw). -/
inductive TaskResult where
  | success (bans : List String) (level : Option Int)
  | failure

/-- The status decision of the `.then`/`.catch` handlers in `main`:
rejection gives `Unknown`; otherwise `bot.bans.length > 0` gives `Banned`,
else `bot.level === 0` gives `Limited`, else `Active`. -/
def classify : TaskResult → AccountStatus
  | .failure => .Unknown
  | .success bans level =>
      if bans.length > 0 then .Banned
      else if level = some 0 then .Limited
      else .Active

/-- The guard sequence of the `.finally` handler in `main`: returns `true`
iff `cleanAccount` is reached. -/
def shouldClean (status : AccountStatus) (config : Config) : Bool :=
  if status = AccountStatus.Active then false
  else if status = AccountStatus.Banned && !config.CleanBannedAccounts then false
  else if status = AccountStatus.Limited && !config.CleanLimitedAccounts then false
  else true

/-- Observable actions of the per-account handler chain and of `Bot`. -/
inductive Event where
  | writeStatus (s : AccountStatus)
  | stopCall
  | cleanCall (id : String) (s : AccountStatus)
deriving DecidableEq, Repr

/-- The `.then(...).catch(...).finally(...)` chain attached to one queue entry
in `main`: exactly one status write (per the settled result), then
`bot.stop()`, then `cleanAccount(account)` iff the guards fall through. -/
def afterSettle (config : Config) (acc : Account) (r : TaskResult) : List Event :=
  Event.writeStatus (classify r) ::
    Event.stopCall ::
      (if shouldClean (classify r) config then
        [Event.cleanCall acc.id (classify r)]
      else [])

/-- One batch: each submitted account's chain runs once on its settled
result (`main` attaches one chain per `queue.add`). -/
def runBatch (config : Config) (jobs : List (Account × TaskResult)) :
    List (Account × List Event) :=
  jobs.map (fun j => (j.1, afterSettle config j.1 j.2))

/-- `true` iff the event is a write to `account.status`. -/
def isWriteEvent : Event → Bool
  | .writeStatus _ => true
  | _ => false

/-- `true` iff the event is an invocation of `bot.stop()` /
`this.stop()` (`agent.destroy()`). -/
def isStopEvent : Event → Bool
  | .stopCall => true
  | _ => false

/-- `concurrency = proxies.length || 1` in `main` (`0` is falsy). -/
def concurrencyOf (proxies : List String) : Nat :=
  match proxies.length with
  | 0 => 1
  | n + 1 => n + 1

/-- Options object passed to `new PQueue(...)` in `main`. -/
structure QueueConfig where
  concurrency : Nat
  interval : Nat
  intervalCap : Nat
deriving DecidableEq, Repr

/-- `new PQueue({ concurrency, interval: 30000, intervalCap: concurrency })`. -/
def mainQueueConfig (proxies : List String) : QueueConfig :=
  { concurrency := concurrencyOf proxies
    interval := 30000
    intervalCap := concurrencyOf proxies }

/-- The inter-attempt delay of the `retry` engine used by `p-retry`:
`min(minTimeout * factor ^ attemptIndex, maxTimeout)` with default factor 2.
Modelled from the library's documented semantics (`p-retry` is an npm
dependency, not part of this repository's sources). -/
def retryTimeout (minT maxT attempt : Nat) : Nat :=
  min (minT * 2 ^ attempt) maxT

/-- Trace of one `pRetry(() => bot.start(), ...)` run. -/
structure RetryRun (ε : Type) where
  attempts : Nat
  delays : List Nat
  events : List Event
  result : Except ε Unit

/-- `p-retry` recursion, modelled from its documented semantics: run the
attempt with index `attempt` (0-based); on success stop; on failure, if
retries remain, wait `retryTimeout minT maxT attempt` and recurse, otherwise
rethrow the last attempt's error unchanged. `outcomes i` is the external
outcome of the `i`-th invocation of `bot.start()`; a failing invocation emits
one `stopCall` event, because the `catch` block of `Bot.start`
(`src/bot.ts`) calls `this.stop()` before rethrowing. -/
def pRetryGo {ε : Type} (outcomes : Nat → Except ε Unit) (minT maxT attempt : Nat) :
    Nat → RetryRun ε
  | 0 =>
      match outcomes attempt with
      | .ok _ => { attempts := 1, delays := [], events := [], result := .ok () }
      | .error e =>
          { attempts := 1, delays := [], events := [Event.stopCall], result := .error e }
  | retriesLeft + 1 =>
      match outcomes attempt with
      | .ok _ => { attempts := 1, delays := [], events := [], result := .ok () }
      | .error _ =>
          let rest := pRetryGo outcomes minT maxT (attempt + 1) retriesLeft
          { attempts := rest.attempts + 1
            delays := retryTimeout minT maxT attempt :: rest.delays
            events := Event.stopCall :: rest.events
            result := rest.result }

/-- The retry wrapper exactly as `main` configures it:
`pRetry(() => bot.start(), { retries: 3, minTimeout: 30000, maxTimeout: 30000 })`. -/
def mainRetry {ε : Type} (outcomes : Nat → Except ε Unit) : RetryRun ε :=
  pRetryGo outcomes 30000 30000 0 3

/-- Number of attempts of a run that failed (did not settle `.ok`):
every attempt's `start` failed. -/
def failedAttempts {ε : Type} (run : RetryRun ε) : Nat :=
  match run.result with
  | .ok _ => run.attempts - 1
  | .error _ => run.attempts

/-- The settled result the handler chain sees: fulfilment carries the bot's
`bans`/`level` fields, any rejection reaches `.catch`. -/
def taskOutcome {ε : Type} (r : Except ε Unit) (bans : List String)
    (level : Option Int) : TaskResult :=
  match r with
  | .ok _ => .success bans level
  | .error _ => .failure

/-- Full observable trace of one queue entry: the retry-wrapped `bot.start`
attempts followed by the `.then`/`.catch`/`.finally` chain on the settled
result. -/
def taskEvents {ε : Type} (config : Config) (acc : Account) (bans : List String)
    (level : Option Int) (outcomes : Nat → Except ε Unit) : List Event :=
  let run := mainRetry outcomes
  run.events ++ afterSettle config acc (taskOutcome run.result bans level)

/-- Filesystem as seen through `fs.existsSync` + `fs.readFileSync` +
`JSON.parse`: `none` = no such file; `some (.error ())` = the file exists but
`JSON.parse` throws; `some (.ok j)` = the file parses to `j`. -/
def FS : Type := String → Option (Except Unit Json)

/-- `fs.readFileSync` + `JSON.parse` on a path assumed to exist (paths from
the directory listing): a missing file or a parse failure throws. -/
def readJsonFile (fs : FS) (p : String) : Except Unit Json :=
  match fs p with
  | none => .error ()
  | some r => r

/-- One sidecar probe of `readAccounts`: if the file at `p` exists, read and
parse it (a parse failure throws), extract the candidate secret value, and
keep it only if truthy; a missing file or a falsy candidate yields nothing. -/
def readSidecar (fs : FS) (p : String) (extract : Json → Option Json) :
    Except Unit (Option Json) :=
  match fs p with
  | none => .ok none
  | some (.error _) => .error ()
  | some (.ok j) =>
      let v := extract j
      .ok (if truthyOpt v then v else none)

/-- The `.db` candidate field: `db?._MobileAuthenticator?.shared_secret`. -/
def dbExtract (j : Json) : Option Json :=
  (j.get "_MobileAuthenticator").bind (fun m => m.get "shared_secret")

/-- The `.mafile` / `.maFile` candidate field: `mafile?.shared_secret`. -/
def mafileExtract (j : Json) : Option Json :=
  j.get "shared_secret"

/-- The paths actually read while probing a sidecar candidate at `p`: the
file is read only when `fs.existsSync` reports it present. -/
def consultedAt (fs : FS) (p : String) : List String :=
  if (fs p).isSome then [p] else []

/-- The shared-secret enrichment of `readAccounts` for one account id:
probe `id + '.db'`, then (only while `account.secret` is still null)
`id + '.mafile'`, then `id + '.maFile'`; returns the consulted (read) paths
and the resulting `account.secret` (a parse failure of a consulted file
throws). -/
def lookupSecret (fs : FS) (id : String) : List String × Except Unit (Option Json) :=
  match readSidecar fs (id ++ ".db") dbExtract with
  | .error e => (consultedAt fs (id ++ ".db"), .error e)
  | .ok (some v) => (consultedAt fs (id ++ ".db"), .ok (some v))
  | .ok none =>
      match readSidecar fs (id ++ ".mafile") mafileExtract with
      | .error e =>
          (consultedAt fs (id ++ ".db") ++ consultedAt fs (id ++ ".mafile"), .error e)
      | .ok (some v) =>
          (consultedAt fs (id ++ ".db") ++ consultedAt fs (id ++ ".mafile"), .ok (some v))
      | .ok none =>
          match readSidecar fs (id ++ ".maFile") mafileExtract with
          | .error e =>
              (consultedAt fs (id ++ ".db") ++ consultedAt fs (id ++ ".mafile")
                ++ consultedAt fs (id ++ ".maFile"), .error e)
          | .ok r =>
              (consultedAt fs (id ++ ".db") ++ consultedAt fs (id ++ ".mafile")
                ++ consultedAt fs (id ++ ".maFile"), .ok r)

/-- The body of the `readAccounts` loop for one `.json` path: parse the file
(a parse failure throws out of the whole loop), skip the entry (`continue`)
when the record or a required credential field is falsy, otherwise build the
`Account` with the derived id and the sidecar secret. -/
def readOne (fs : FS) (p : String) : Except Unit (Option Account) :=
  match readJsonFile fs p with
  | .error e => .error e
  | .ok json =>
      if !json.truthy || !truthyOpt (json.get "SteamLogin")
          || !truthyOpt (json.get "SteamPassword") then
        .ok none
      else
        match (lookupSecret fs (deriveId p)).2 with
        | .error e => .error e
        | .ok secret =>
            .ok (some
              { id := deriveId p
                status := AccountStatus.Active
                username := (json.get "SteamLogin").getD Json.null
                password := (json.get "SteamPassword").getD Json.null
                secret := secret })

/-- The `readAccounts` loop over the `.json` paths, in listing order. -/
def readAccountsGo (fs : FS) : List String → Except Unit (List Account)
  | [] => .ok []
  | p :: rest =>
      match readOne fs p with
      | .error e => .error e
      | .ok none => readAccountsGo fs rest
      | .ok (some a) =>
          match readAccountsGo fs rest with
          | .error e => .error e
          | .ok as => .ok (a :: as)

/-- JavaScript `s.endsWith(suffix)`, on the character lists. -/
def strEndsWith (s suffix : String) : Bool :=
  suffix.data.isSuffixOf s.data

/-- `readAccounts` from `src/index.ts`, with the recursive directory listing
given as `filePaths`: keep the paths ending in `.json` and run the loop. -/
def readAccounts (fs : FS) (filePaths : List String) : Except Unit (List Account) :=
  readAccountsGo fs (filePaths.filter (fun f => strEndsWith f ".json"))

/-- A concrete account record, as `readAccounts` would build it from
`farms/a1.json`. -/
def acctA : Account :=
  { id := "farms/a1"
    status := AccountStatus.Active
    username := Json.str "alice"
    password := Json.str "hunter2"
    secret := none }

/-- An action whose every invocation fails with the same cause `7`. -/
def failAllOutcomes : Nat → Except Nat Unit := fun _ => Except.error 7

/-- The filesystem of a well-formed single-account farm: one parseable
credential file and no sidecar files. -/
def fsGood : FS := fun p =>
  if p = "farms/a1.json" then
    some (Except.ok (Json.obj
      [("SteamLogin", Json.str "alice"), ("SteamPassword", Json.str "hunter2")]))
  else none

/-- The account `readAccounts` builds from `fsGood`. -/
def acctFromGood : Account :=
  { id := "farms/a1"
    status := AccountStatus.Active
    username := Json.str "alice"
    password := Json.str "hunter2"
    secret := none }

/-- A farm directory in which `farms/bad.json` exists but is not valid JSON
and `farms/good.json` is a complete, well-formed credential file. -/
def fsC5bad : FS := fun p =>
  if p = "farms/bad.json" then some (Except.error ())
  else if p = "farms/good.json" then
    some (Except.ok (Json.obj
      [("SteamLogin", Json.str "bob"), ("SteamPassword", Json.str "pw")]))
  else none

/-- A farm directory with one credential file that parses but lacks
`SteamLogin`, and one file that does not parse. -/
def fsC5w : FS := fun p =>
  if p = "farms/nologin.json" then some (Except.ok (Json.obj []))
  else if p = "farms/bad2.json" then some (Except.error ())
  else none

/-- First sidecar candidate of `readAccounts`: the `.db` file with field
`_MobileAuthenticator.shared_secret`. -/
def dbProbe (fs : FS) (id : String) : Except Unit (Option Json) :=
  readSidecar fs (id ++ ".db") dbExtract

/-- Second sidecar candidate: the `.mafile` file with field `shared_secret`. -/
def mafileProbe (fs : FS) (id : String) : Except Unit (Option Json) :=
  readSidecar fs (id ++ ".mafile") mafileExtract

/-- Third sidecar candidate: the `.maFile` file with field `shared_secret`. -/
def maFileProbe (fs : FS) (id : String) : Except Unit (Option Json) :=
  readSidecar fs (id ++ ".maFile") mafileExtract

/-- A farm in which `farms/a2.db` holds a truthy shared secret while
`farms/a2.mafile` exists but would not even parse: the `.db` hit must win
without the later candidates being read. -/
def fsC10 : FS := fun p =>
  if p = "farms/a2.db" then
    some (Except.ok (Json.obj
      [("_MobileAuthenticator", Json.obj [("shared_secret", Json.str "S3")])]))
  else if p = "farms/a2.mafile" then some (Except.error ())
  else none

/-! Helper lemmas. -/

/-- The `.finally` guard sequence always reaches `cleanAccount` for an
`Unknown` account: none of the three early returns fires. -/
theorem shouldClean_unknown (config : Config) :
    shouldClean AccountStatus.Unknown config = true := by
  cases config with
  | mk l b => cases l <;> cases b <;> decide

/-- The handler chain performs exactly one status write. -/
theorem afterSettle_write_count (config : Config) (acc : Account) (r : TaskResult) :
    (afterSettle config acc r).countP isWriteEvent = 1 := by
  unfold afterSettle
  cases h : shouldClean (classify r) config <;>
    simp [List.countP_cons, isWriteEvent]

/-- The handler chain performs exactly one `bot.stop()` call (in `.finally`). -/
theorem afterSettle_stop_count (config : Config) (acc : Account) (r : TaskResult) :
    (afterSettle config acc r).countP isStopEvent = 1 := by
  unfold afterSettle
  cases h : shouldClean (classify r) config <;>
    simp [List.countP_cons, isStopEvent]

/-! Claim theorems. -/

/-- C7: `main` computes the concurrency as the proxy-pool size with fallback 1
(`proxies.length || 1`, i.e. `max proxies.length 1`) and passes the same value
as both the concurrency cap and the 30-second-window start cap of the queue. -/
theorem C7_queue_caps (proxies : List String) :
    (mainQueueConfig proxies).concurrency = max proxies.length 1
    ∧ (mainQueueConfig proxies).interval = 30000
    ∧ (mainQueueConfig proxies).intervalCap = (mainQueueConfig proxies).concurrency := by
  refine ⟨?_, rfl, rfl⟩
  unfold mainQueueConfig concurrencyOf
  cases h : proxies.length with
  | zero => simp
  | succ n => simp

/-- C2: the outcome classifier maps a rejected task to `Unknown`; for a
fulfilled task a non-empty bans list gives `Banned` regardless of the level
(ban check takes precedence), and with an empty bans list the status is
`Limited` exactly when `level === 0`, else `Active`; in particular
`bans = ['x']`, `level = 0` gives `Banned`, not `Limited`. -/
theorem C2_classifier_order :
    classify TaskResult.failure = AccountStatus.Unknown
    ∧ (∀ (x : String) (bans : List String) (level : Option Int),
        classify (TaskResult.success (x :: bans) level) = AccountStatus.Banned)
    ∧ (∀ level : Option Int,
        classify (TaskResult.success [] level) =
          if level = some 0 then AccountStatus.Limited else AccountStatus.Active)
    ∧ classify (TaskResult.success ["x"] (some 0)) = AccountStatus.Banned := by
  refine ⟨rfl, ?_, ?_, rfl⟩
  · intro x bans level
    simp [classify]
  · intro level
    simp [classify]

/-- C8 counterexample: a fulfilled task with `bans = []` whose `level` field
was never set (`undefined`) is classified `Active`, not `Limited`:
`undefined === 0` is `false` in the `bot.level === 0` check. -/
theorem C8_counterexample :
    classify (TaskResult.success [] none) = AccountStatus.Active
    ∧ classify (TaskResult.success [] none) ≠ AccountStatus.Limited := by
  exact ⟨rfl, by decide⟩

/-- C8 amended: a fulfilled task with an empty bans list and an unset
(`undefined`) `level` is classified `Active` — the strict-equality check
`bot.level === 0` does not treat `undefined` as 0. -/
theorem C8_undefined_level_is_active :
    classify (TaskResult.success [] none) = AccountStatus.Active := rfl

/-- C1 counterexample: for an account whose terminal status is `Unknown`
(settled by rejection), the `.finally` handler reaches `cleanAccount` even
with both cleaning toggles off — the guard sequence has no early return
for `Unknown`, so the files are moved, not left in place. -/
theorem C1_counterexample :
    Event.cleanCall "farms/a1" AccountStatus.Unknown ∈
      afterSettle { CleanLimitedAccounts := false, CleanBannedAccounts := false }
        acctA TaskResult.failure := by
  decide

/-- C1 amended: for every account whose terminal status is `Unknown`, the
post-processing guards always invoke the archival collaborator
(`cleanAccount`), regardless of the configuration toggles: the account's
files are moved into the `unknown` subdirectory. -/
theorem C1_unknown_always_cleaned (config : Config) (acc : Account) (r : TaskResult)
    (h : classify r = AccountStatus.Unknown) :
    Event.cleanCall acc.id AccountStatus.Unknown ∈ afterSettle config acc r := by
  unfold afterSettle
  rw [h, shouldClean_unknown]
  simp

/-- C1 witness: a rejected task settles `Unknown`, and with both toggles
`false` its `cleanAccount` call is in the handler-chain trace. -/
theorem C1_unknown_always_cleaned_witness :
    classify TaskResult.failure = AccountStatus.Unknown
    ∧ Event.cleanCall acctA.id AccountStatus.Unknown ∈
        afterSettle { CleanLimitedAccounts := false, CleanBannedAccounts := false }
          acctA TaskResult.failure :=
  ⟨rfl, C1_unknown_always_cleaned
    { CleanLimitedAccounts := false, CleanBannedAccounts := false }
    acctA TaskResult.failure rfl⟩

/-- C3: every account submitted to the queue has exactly one status write in
its handler-chain trace — one of the four `AccountStatus` values (the type of
the written value), whether the task fulfilled or rejected. -/
theorem C3_exactly_one_status_write (config : Config)
    (jobs : List (Account × TaskResult)) :
    ∀ p ∈ runBatch config jobs,
      p.2.countP isWriteEvent = 1
      ∧ ∃ s : AccountStatus, Event.writeStatus s ∈ p.2 := by
  intro p hp
  unfold runBatch at hp
  obtain ⟨j, hj, rfl⟩ := List.mem_map.mp hp
  refine ⟨afterSettle_write_count config j.1 j.2, ⟨classify j.2, ?_⟩⟩
  unfold afterSettle
  simp

/-- C3 witness: a one-account batch whose task rejected; its trace has
exactly one status write. -/
theorem C3_exactly_one_status_write_witness :
    (acctA, afterSettle getDefaultConfig acctA TaskResult.failure) ∈
        runBatch getDefaultConfig [(acctA, TaskResult.failure)]
    ∧ ((acctA, afterSettle getDefaultConfig acctA TaskResult.failure).2.countP
          isWriteEvent = 1
        ∧ ∃ s : AccountStatus, Event.writeStatus s ∈
            (acctA, afterSettle getDefaultConfig acctA TaskResult.failure).2) := by
  have hmem : (acctA, afterSettle getDefaultConfig acctA TaskResult.failure) ∈
      runBatch getDefaultConfig [(acctA, TaskResult.failure)] := by
    unfold runBatch
    simp
  exact ⟨hmem,
    C3_exactly_one_status_write getDefaultConfig [(acctA, TaskResult.failure)] _ hmem⟩

/-- With `minTimeout = maxTimeout = m`, the retry delay is `m` at every
attempt index: `min (m * 2 ^ k) m = m`. -/
theorem retryTimeout_self (m k : Nat) : retryTimeout m m k = m := by
  have h1 : m ≤ m * 2 ^ k := by
    calc m = m * 1 := (Nat.mul_one m).symm
    _ ≤ m * 2 ^ k := Nat.mul_le_mul_left m Nat.one_le_two_pow
  unfold retryTimeout
  omega

/-- The retry wrapper makes at most `retriesLeft + 1` attempts. -/
theorem pRetryGo_attempts_le {ε : Type} (outcomes : Nat → Except ε Unit)
    (minT maxT : Nat) :
    ∀ retriesLeft attempt,
      (pRetryGo outcomes minT maxT attempt retriesLeft).attempts ≤ retriesLeft + 1 := by
  intro retriesLeft
  induction retriesLeft with
  | zero =>
      intro attempt
      unfold pRetryGo
      cases h : outcomes attempt <;> simp
  | succ n ih =>
      intro attempt
      unfold pRetryGo
      cases h : outcomes attempt with
      | ok _ => simp
      | error e =>
          simpa using Nat.succ_le_succ (ih (attempt + 1))

/-- The retry wrapper makes at least one attempt. -/
theorem pRetryGo_attempts_pos {ε : Type} (outcomes : Nat → Except ε Unit)
    (minT maxT : Nat) :
    ∀ retriesLeft attempt,
      1 ≤ (pRetryGo outcomes minT maxT attempt retriesLeft).attempts := by
  intro retriesLeft
  induction retriesLeft with
  | zero =>
      intro attempt
      unfold pRetryGo
      cases h : outcomes attempt <;> simp
  | succ n ih =>
      intro attempt
      unfold pRetryGo
      cases h : outcomes attempt with
      | ok _ => simp
      | error e => simp

/-- With equal minimum and maximum timeouts, every inter-attempt delay of the
retry wrapper equals that timeout (no exponential growth). -/
theorem pRetryGo_delays_fixed {ε : Type} (outcomes : Nat → Except ε Unit) (m : Nat) :
    ∀ retriesLeft attempt,
      ∀ d ∈ (pRetryGo outcomes m m attempt retriesLeft).delays, d = m := by
  intro retriesLeft
  induction retriesLeft with
  | zero =>
      intro attempt d hd
      unfold pRetryGo at hd
      cases h : outcomes attempt <;> rw [h] at hd <;> simp at hd
  | succ n ih =>
      intro attempt d hd
      unfold pRetryGo at hd
      cases h : outcomes attempt with
      | ok _ => rw [h] at hd; simp at hd
      | error e =>
          rw [h] at hd
          simp only [List.mem_cons] at hd
          rcases hd with rfl | hd
          · exact retryTimeout_self m attempt
          · exact ih (attempt + 1) d hd

/-- If every attempt fails, the retry wrapper uses all `retriesLeft + 1`
attempts and its result is the final attempt's outcome, unchanged. -/
theorem pRetryGo_all_fail {ε : Type} (outcomes : Nat → Except ε Unit)
    (minT maxT : Nat) :
    ∀ retriesLeft attempt,
      (∀ i, i ≤ retriesLeft → ∃ e, outcomes (attempt + i) = Except.error e) →
      (pRetryGo outcomes minT maxT attempt retriesLeft).attempts = retriesLeft + 1
      ∧ (pRetryGo outcomes minT maxT attempt retriesLeft).result
          = outcomes (attempt + retriesLeft) := by
  intro retriesLeft
  induction retriesLeft with
  | zero =>
      intro attempt hfail
      obtain ⟨e, he⟩ := hfail 0 (Nat.le_refl 0)
      rw [Nat.add_zero] at he
      unfold pRetryGo
      rw [he]
      exact ⟨rfl, by rw [Nat.add_zero, he]⟩
  | succ n ih =>
      intro attempt hfail
      obtain ⟨e, he⟩ := hfail 0 (Nat.zero_le _)
      rw [Nat.add_zero] at he
      have hrest := ih (attempt + 1) (fun i hi => by
        obtain ⟨e', he'⟩ := hfail (i + 1) (Nat.succ_le_succ hi)
        exact ⟨e', by rw [← he']; ring_nf⟩)
      unfold pRetryGo
      rw [he]
      refine ⟨by simpa using hrest.1, ?_⟩
      simp only
      rw [hrest.2]
      ring_nf

/-- During the retry phase, the number of `stopCall` events equals the number
of failed `bot.start` invocations (each failing `start` calls `this.stop()`
once in its `catch` block; a successful one calls it zero times). -/
theorem pRetryGo_stop_count {ε : Type} (outcomes : Nat → Except ε Unit)
    (minT maxT : Nat) :
    ∀ retriesLeft attempt,
      (pRetryGo outcomes minT maxT attempt retriesLeft).events.countP isStopEvent
        = failedAttempts (pRetryGo outcomes minT maxT attempt retriesLeft) := by
  intro retriesLeft
  induction retriesLeft with
  | zero =>
      intro attempt
      unfold pRetryGo failedAttempts
      cases h : outcomes attempt <;> simp [isStopEvent]
  | succ n ih =>
      intro attempt
      unfold pRetryGo failedAttempts
      cases h : outcomes attempt with
      | ok _ => simp [isStopEvent]
      | error e =>
          have hpos := pRetryGo_attempts_pos outcomes minT maxT n (attempt + 1)
          have hcount := ih (attempt + 1)
          unfold failedAttempts at hcount
          simp only [List.countP_cons, isStopEvent]
          cases hres : (pRetryGo outcomes minT maxT (attempt + 1) n).result with
          | ok _ =>
              rw [hres] at hcount
              simp [hcount]
              omega
          | error e' =>
              rw [hres] at hcount
              simp [hcount]

/-- C6: the retry wrapper as `main` configures it (`retries: 3`,
`minTimeout: 30000`, `maxTimeout: 30000`) invokes the action at most 4 times,
waits exactly 30000 ms between consecutive attempts (the factor-2 backoff is
clamped by `maxTimeout`, so no exponential growth), and when every attempt
fails it propagates the final attempt's failure unchanged. -/
theorem C6_retry_policy {ε : Type} (outcomes : Nat → Except ε Unit) :
    (mainRetry outcomes).attempts ≤ 4
    ∧ (∀ d ∈ (mainRetry outcomes).delays, d = 30000)
    ∧ ((∀ i, i ≤ 3 → ∃ e, outcomes i = Except.error e) →
        (mainRetry outcomes).attempts = 4
        ∧ (mainRetry outcomes).result = outcomes 3) := by
  refine ⟨pRetryGo_attempts_le outcomes 30000 30000 3 0,
    pRetryGo_delays_fixed outcomes 30000 3 0, ?_⟩
  intro h
  have hall := pRetryGo_all_fail outcomes 30000 30000 3 0
    (fun i hi => by simpa using h i hi)
  exact ⟨hall.1, by simpa using hall.2⟩

/-- C6 witness: on an always-failing action, the wrapper makes exactly 4
attempts, all delays are 30000 ms, and the final cause `7` comes out
unchanged. -/
theorem C6_retry_policy_witness :
    (mainRetry failAllOutcomes).attempts = 4
    ∧ (mainRetry failAllOutcomes).result = Except.error 7 :=
  (C6_retry_policy failAllOutcomes).2.2 (fun _ _ => ⟨7, rfl⟩)

/-- C4 counterexample: for a task whose action throws on every attempt, the
resource-release call is invoked five times, not exactly once: once inside
`Bot.start`'s `catch` at each of the 4 failed attempts, plus once in the
queue's `.finally` handler. -/
theorem C4_counterexample :
    (taskEvents getDefaultConfig acctA [] none failAllOutcomes).countP isStopEvent = 5
    ∧ (taskEvents getDefaultConfig acctA [] none failAllOutcomes).countP
        isStopEvent ≠ 1 := by
  constructor <;> decide

/-- C4 amended: the `.finally` handler invokes the task's `stop` exactly once
per task on every exit path (no leak), but `Bot.start` itself also calls
`this.stop()` once per failed attempt before rethrowing, so the task's total
number of `stop` invocations is 1 + the number of failed attempts — at least
once, and more than once whenever the action throws. -/
theorem C4_stop_once_per_exit_path {ε : Type} (config : Config) (acc : Account)
    (bans : List String) (level : Option Int) (outcomes : Nat → Except ε Unit) :
    (afterSettle config acc
        (taskOutcome (mainRetry outcomes).result bans level)).countP isStopEvent = 1
    ∧ (taskEvents config acc bans level outcomes).countP isStopEvent
        = failedAttempts (mainRetry outcomes) + 1
    ∧ 1 ≤ (taskEvents config acc bans level outcomes).countP isStopEvent := by
  have h1 := afterSettle_stop_count config acc
    (taskOutcome (mainRetry outcomes).result bans level)
  have h2 : (taskEvents config acc bans level outcomes).countP isStopEvent
      = failedAttempts (mainRetry outcomes) + 1 := by
    unfold taskEvents
    rw [List.countP_append, h1]
    have := pRetryGo_stop_count outcomes 30000 30000 3 0
    unfold mainRetry
    rw [this]
  exact ⟨h1, h2, by omega⟩

/-- Appending distinct suffixes to the same string gives distinct strings. -/
theorem string_append_right_ne (s : String) {a b : String} (h : a ≠ b) :
    s ++ a ≠ s ++ b := by
  intro he
  apply h
  have hd : s.data ++ a.data = s.data ++ b.data := by
    have := congrArg String.data he
    simpa [String.data_append] using this
  exact String.ext (List.append_cancel_left hd)

/-- A path different from `p` is never among the paths read while probing `p`. -/
theorem not_mem_consultedAt (fs : FS) {p q : String} (h : q ≠ p) :
    q ∉ consultedAt fs p := by
  unfold consultedAt
  split
  · simpa using h
  · simp

/-- C9: the account id derived by `readAccounts` from `farms/a1.json` is
`farms/a1` (extension stripped, directory preserved), and every account the
loader produces from a path carries exactly the id derived from that path —
the derivation is a pure function of the path, hence stable across repeated
loads. -/
theorem C9_id_derivation :
    deriveId "farms/a1.json" = "farms/a1"
    ∧ ∀ (fs : FS) (p : String) (a : Account),
        readOne fs p = Except.ok (some a) → a.id = deriveId p := by
  constructor
  · decide
  · intro fs p a h
    unfold readOne at h
    split at h
    · simp at h
    · split at h
      · simp at h
      · split at h
        · simp at h
        · simp only [Except.ok.injEq, Option.some.injEq] at h
          subst h
          rfl

/-- C9 witness: loading `farms/a1.json` yields an account whose id is the
derived `farms/a1`. -/
theorem C9_id_derivation_witness :
    deriveId "farms/a1.json" = "farms/a1"
    ∧ acctFromGood.id = deriveId "farms/a1.json" :=
  ⟨C9_id_derivation.1,
    C9_id_derivation.2 fsGood "farms/a1.json" acctFromGood rfl⟩

/-- C5 counterexample: an unparseable credential file is not skipped —
`JSON.parse` throws with no surrounding try/catch in `readAccounts`, so the
whole load aborts and the well-formed `farms/good.json` after it is never
loaded. -/
theorem C5_counterexample :
    readAccounts fsC5bad ["farms/bad.json", "farms/good.json"]
      = Except.error () := rfl

/-- C5 amended: an entry whose record or required credential field is falsy
is skipped silently and loading of the remaining entries proceeds; but an
entry whose file fails to parse throws, aborting the entire account load. -/
theorem C5_skip_fields_throw_on_bad_json (fs : FS) (p : String)
    (rest : List String) (j : Json)
    (hp : strEndsWith p ".json" = true)
    (hread : fs p = some (Except.ok j))
    (hskip : (!j.truthy || !truthyOpt (j.get "SteamLogin")
        || !truthyOpt (j.get "SteamPassword")) = true) :
    readAccounts fs (p :: rest) = readAccounts fs rest
    ∧ ∀ (q : String) (qrest : List String), strEndsWith q ".json" = true →
        fs q = some (Except.error ()) →
        readAccounts fs (q :: qrest) = Except.error () := by
  constructor
  · unfold readAccounts
    rw [show List.filter (fun f => strEndsWith f ".json") (p :: rest)
        = p :: List.filter (fun f => strEndsWith f ".json") rest by
      simp [List.filter_cons, hp]]
    have hone : readOne fs p = Except.ok none := by
      unfold readOne readJsonFile
      rw [hread]
      simp [hskip]
    rw [readAccountsGo]
    rw [hone]
  · intro q qrest hq hbad
    unfold readAccounts
    rw [show List.filter (fun f => strEndsWith f ".json") (q :: qrest)
        = q :: List.filter (fun f => strEndsWith f ".json") qrest by
      simp [List.filter_cons, hq]]
    have hone : readOne fs q = Except.error () := by
      unfold readOne readJsonFile
      rw [hbad]
    rw [readAccountsGo]
    rw [hone]

/-- C5 witness: the field-missing entry is skipped with the load proceeding
(same result as without it), while the unparseable entry aborts the load. -/
theorem C5_skip_fields_throw_on_bad_json_witness :
    readAccounts fsC5w ["farms/nologin.json"] = readAccounts fsC5w []
    ∧ readAccounts fsC5w ["farms/bad2.json", "farms/x.json"] = Except.error () := by
  have h := C5_skip_fields_throw_on_bad_json fsC5w "farms/nologin.json" []
    (Json.obj []) rfl rfl rfl
  exact ⟨h.1, h.2 "farms/bad2.json" ["farms/x.json"] rfl rfl⟩

/-- C10: the shared-secret lookup tries `.db` (field
`_MobileAuthenticator.shared_secret`), then `.mafile`, then `.maFile` (field
`shared_secret`), in that fixed order; the first candidate yielding a truthy
secret wins and the later files are not even read; if no candidate yields a
secret, the account's secret remains null. -/
theorem C10_secret_priority (fs : FS) (id : String) :
    (∀ v, dbProbe fs id = Except.ok (some v) →
        (lookupSecret fs id).2 = Except.ok (some v)
        ∧ (id ++ ".mafile") ∉ (lookupSecret fs id).1
        ∧ (id ++ ".maFile") ∉ (lookupSecret fs id).1)
    ∧ (∀ v, dbProbe fs id = Except.ok none → mafileProbe fs id = Except.ok (some v) →
        (lookupSecret fs id).2 = Except.ok (some v)
        ∧ (id ++ ".maFile") ∉ (lookupSecret fs id).1)
    ∧ (∀ v, dbProbe fs id = Except.ok none → mafileProbe fs id = Except.ok none →
        maFileProbe fs id = Except.ok (some v) →
        (lookupSecret fs id).2 = Except.ok (some v))
    ∧ (dbProbe fs id = Except.ok none → mafileProbe fs id = Except.ok none →
        maFileProbe fs id = Except.ok none →
        (lookupSecret fs id).2 = Except.ok none) := by
  unfold dbProbe mafileProbe maFileProbe
  refine ⟨?_, ?_, ?_, ?_⟩
  · intro v hdb
    unfold lookupSecret
    rw [hdb]
    refine ⟨rfl, ?_, ?_⟩
    · exact not_mem_consultedAt fs
        (string_append_right_ne id (by decide))
    · exact not_mem_consultedAt fs
        (string_append_right_ne id (by decide))
  · intro v hdb hma
    unfold lookupSecret
    rw [hdb, hma]
    refine ⟨rfl, ?_⟩
    simp only [List.mem_append, not_or]
    exact ⟨not_mem_consultedAt fs (string_append_right_ne id (by decide)),
      not_mem_consultedAt fs (string_append_right_ne id (by decide))⟩
  · intro v hdb hma hmaF
    unfold lookupSecret
    rw [hdb, hma, hmaF]
  · intro hdb hma hmaF
    unfold lookupSecret
    rw [hdb, hma, hmaF]

/-- C10 witness: the `.db` secret `S3` is returned and neither the `.mafile`
nor the `.maFile` path is consulted — the malformed `.mafile` never throws. -/
theorem C10_secret_priority_witness :
    dbProbe fsC10 "farms/a2" = Except.ok (some (Json.str "S3"))
    ∧ ((lookupSecret fsC10 "farms/a2").2 = Except.ok (some (Json.str "S3"))
        ∧ ("farms/a2" ++ ".mafile") ∉ (lookupSecret fsC10 "farms/a2").1
        ∧ ("farms/a2" ++ ".maFile") ∉ (lookupSecret fsC10 "farms/a2").1) := by
  have h1 : dbProbe fsC10 "farms/a2" = Except.ok (some (Json.str "S3")) := rfl
  exact ⟨h1, (C10_secret_priority fsC10 "farms/a2").1 (Json.str "S3") h1⟩
